import Mathlib

/-!
# kube-bench `cmd/util.go`: pre-flight verification helpers

A shallow embedding of `src/cmd/util.go` and the properties of its
natural-language specification.

Modelling conventions.

* A Go `string` is a Lean `String`; library functions that scan a string work on
  its list of characters (`String.data`).
* The Go library functions used by the file are given executable models that
  follow their documented behaviour: `strings.Trim`, `strings.Split`,
  `strings.Contains`, `fmt.Sprintf` with `%s` verbs (concatenation), and the part
  of `regexp` the file needs (see `regexpCompile`).
* The outside world (search path, file system, child processes, the colour
  table) is an explicit environment `Env`; the effects of a function (writes to
  standard error, errors handed to the verbose log, external calls made) are
  collected in an `Output` that is threaded through the functions.
* A `for ... range` loop is a left fold of its body over the slice; the state of
  the fold holds the variables the body assigns.
* `exitWithError` has no caller in the file and is left out. The text of a
  `regexp.Compile` error is not modelled; no property below depends on it.
-/

namespace KubeBench

/-! ## Go `strings` -/

/-- Membership of a character in a Go cutset string. -/
def inCutset (cutset : String) (c : Char) : Bool :=
  cutset.data.contains c

/-- Go `strings.Trim(s, cutset)`: `s` without its leading and trailing characters
that occur in `cutset` (the library trims the right end, then the left end). -/
def stringsTrim (s cutset : String) : String :=
  ⟨((s.data.rdropWhile (inCutset cutset)).dropWhile (inCutset cutset))⟩

/-- Worker of `stringsSplit` for a non-empty separator: `skip` counts the
characters of a separator occurrence that are still to be passed over, `cur` is
the current piece, reversed. -/
def splitAux (sep : List Char) : Nat → List Char → List Char → List String
  | _, cur, [] => [⟨cur.reverse⟩]
  | skip + 1, cur, _ :: cs => splitAux sep skip cur cs
  | 0, cur, c :: cs =>
    if sep.isPrefixOf (c :: cs) then
      ⟨cur.reverse⟩ :: splitAux sep (sep.length - 1) [] cs
    else
      splitAux sep 0 (c :: cur) cs

/-- Go `strings.Split(s, sep)`: the pieces of `s` between the successive
occurrences of `sep`; with an empty `sep`, the characters of `s`. -/
def stringsSplit (s sep : String) : List String :=
  if sep.data = [] then s.data.map String.singleton
  else splitAux sep.data 0 [] s.data

/-- Worker of `stringsContains`: does `sub` start at some position of the list? -/
def containsAux (sub : List Char) : List Char → Bool
  | [] => sub.isPrefixOf []
  | c :: cs => sub.isPrefixOf (c :: cs) || containsAux sub cs

/-- Go `strings.Contains(s, substr)`. -/
def stringsContains (s substr : String) : Bool :=
  containsAux substr.data s.data

/-! ## Go `regexp`, for the patterns of this file

The patterns of `util.go` are concatenations of single-character matchers
(literals, `.`, a class `[a-b]`), greedy `*` and `+` on a single-character
matcher, and unnested capturing groups. `regexpCompile` accepts this part of the
RE2 syntax and reports an error on every other pattern (Go accepts some of
them). Matching is leftmost-first with greedy repetition, as in Go. -/

/-- A single-character matcher. -/
inductive CharClass where
  | lit (c : Char)
  | any
  | range (lo hi : Char)
  deriving DecidableEq, Repr

/-- Does the matcher accept the character? `.` accepts all but a line feed. -/
def CharClass.test : CharClass → Char → Bool
  | .lit c, d => d == c
  | .any, d => d != '\n'
  | .range lo hi, d => decide (lo ≤ d) && decide (d ≤ hi)

/-- Lexical tokens of a pattern. -/
inductive Tok where
  | cls (c : CharClass)
  | gopen
  | gclose
  | star
  | plus
  deriving DecidableEq, Repr

/-- Lexer of the supported patterns. A `{` that cannot start a repetition count
is a literal, as in Go; `none` on a character outside the supported syntax. -/
def tokenize : List Char → Option (List Tok)
  | [] => some []
  | c :: rest =>
    if c = '[' then
      match rest with
      | lo :: '-' :: hi :: ']' :: rest2 =>
        if lo = '^' ∨ lo = '\\' ∨ lo = '[' ∨ hi = '\\' ∨ hi = ']' then none
        else (tokenize rest2).map (Tok.cls (.range lo hi) :: ·)
      | _ => none
    else if c = '{' then
      match rest with
      | d :: _ => if d.isDigit then none else (tokenize rest).map (Tok.cls (.lit c) :: ·)
      | [] => some [Tok.cls (.lit c)]
    else if c = '\\' ∨ c = '|' ∨ c = '?' ∨ c = '^' ∨ c = '$' then none
    else if c = '.' then (tokenize rest).map (Tok.cls .any :: ·)
    else if c = '(' then (tokenize rest).map (Tok.gopen :: ·)
    else if c = ')' then (tokenize rest).map (Tok.gclose :: ·)
    else if c = '*' then (tokenize rest).map (Tok.star :: ·)
    else if c = '+' then (tokenize rest).map (Tok.plus :: ·)
    else (tokenize rest).map (Tok.cls (.lit c) :: ·)

/-- One step of a compiled pattern. -/
inductive Item where
  | one (c : CharClass)
  | star (c : CharClass)
  | gopen
  | gclose
  deriving DecidableEq, Repr

/-- Attach the repetition operators to the matcher before them; `x+` is `xx*`. -/
def build : List Tok → Option (List Item)
  | [] => some []
  | .cls c :: .star :: rest => (build rest).map (Item.star c :: ·)
  | .cls c :: .plus :: rest => (build rest).map (fun r => Item.one c :: Item.star c :: r)
  | .cls c :: rest => (build rest).map (Item.one c :: ·)
  | .gopen :: rest => (build rest).map (Item.gopen :: ·)
  | .gclose :: rest => (build rest).map (Item.gclose :: ·)
  | .star :: _ => none
  | .plus :: _ => none

/-- Groups are closed and not nested; the flag tells whether a group is open. -/
def wellGrouped : Bool → List Item → Bool
  | isOpen, [] => !isOpen
  | isOpen, .gopen :: rest => !isOpen && wellGrouped true rest
  | isOpen, .gclose :: rest => isOpen && wellGrouped false rest
  | isOpen, _ :: rest => wellGrouped isOpen rest

/-- A compiled pattern. -/
structure Regex where
  items : List Item
  deriving DecidableEq, Repr

/-- Go `regexp.Compile`, on the supported patterns; an error stands for a pattern
outside them, its text is a placeholder. -/
def regexpCompile (pattern : String) : Except String Regex :=
  match (tokenize pattern.data).bind build with
  | some items =>
    if wellGrouped false items then .ok ⟨items⟩
    else .error ("error parsing regexp: " ++ pattern)
  | none => .error ("error parsing regexp: " ++ pattern)

/-- Go `regexp.MustCompile` for a pattern known to compile. -/
def regexpMustCompile (pattern : String) : Regex :=
  match regexpCompile pattern with
  | .ok r => r
  | .error _ => ⟨[]⟩

/-- Greedy repetition of a single-character matcher followed by the continuation
`k`: the longest run is tried first, then shorter ones. -/
def matchStar {β : Type} (c : CharClass) (k : List Char → Option β) :
    List Char → Option (List Char × β)
  | [] => (k []).map (fun r => ([], r))
  | d :: ds =>
    if c.test d then
      match matchStar c k ds with
      | some (seg, r) => some (d :: seg, r)
      | none => (k (d :: ds)).map (fun r => ([], r))
    else (k (d :: ds)).map (fun r => ([], r))

/-- Match the items at the start of the input; the result has the text consumed
by every item, in order. -/
def matchHere : List Item → List Char → Option (List (List Char))
  | [], _ => some []
  | .one c :: rest, s =>
    match s with
    | [] => none
    | d :: ds => if c.test d then (matchHere rest ds).map ([d] :: ·) else none
  | .star c :: rest, s => (matchStar c (matchHere rest) s).map (fun p => p.1 :: p.2)
  | .gopen :: rest, s => (matchHere rest s).map ([] :: ·)
  | .gclose :: rest, s => (matchHere rest s).map ([] :: ·)

/-- Leftmost match: the first start position at which the items match. -/
def findFrom (items : List Item) : List Char → Option (List (List Char))
  | [] => matchHere items []
  | d :: ds =>
    match matchHere items (d :: ds) with
    | some segs => some segs
    | none => findFrom items ds

/-- Texts of the capturing groups, from the text consumed by every item; `cur` is
the text of the group that is open. -/
def groupTexts : List Item → List (List Char) → Option (List Char) → List String
  | [], _, _ => []
  | _ :: _, [], _ => []
  | .gopen :: is, _ :: ss, _ => groupTexts is ss (some [])
  | .gclose :: is, _ :: ss, cur => ⟨cur.getD []⟩ :: groupTexts is ss none
  | .one _ :: is, seg :: ss, cur => groupTexts is ss (cur.map (· ++ seg))
  | .star _ :: is, seg :: ss, cur => groupTexts is ss (cur.map (· ++ seg))

/-- Go `(*Regexp).FindString`: the text of the leftmost match, `""` without one. -/
def Regex.findString (r : Regex) (s : String) : String :=
  match findFrom r.items s.data with
  | some segs => ⟨segs.flatten⟩
  | none => ""

/-- Go `(*Regexp).FindStringSubmatch`: the text of the leftmost match followed by
the texts of its groups, the empty slice without a match. -/
def Regex.findStringSubmatch (r : Regex) (s : String) : List String :=
  match findFrom r.items s.data with
  | some segs => ⟨segs.flatten⟩ :: groupTexts r.items segs none
  | none => []

/-! ## `util.go`: version check -/

/-- Go: `var regexVersionMajor = regexp.MustCompile("Major:\"([0-9]+)\"")`. -/
def regexVersionMajor : Regex := regexpMustCompile "Major:\"([0-9]+)\""

/-- Go: `var regexVersionMinor = regexp.MustCompile("Minor:\"([0-9]+)\"")`. -/
def regexVersionMinor : Regex := regexpMustCompile "Minor:\"([0-9]+)\""

/-- Go `versionMatch`: the first group of the leftmost match, `""` without one. -/
def versionMatch (r : Regex) (s : String) : String :=
  let m := r.findStringSubmatch s
  if m.length < 2 then "" else m.getD 1 ""

/-- Go `checkVersion`. -/
def checkVersion (x s expMajor expMinor : String) : String :=
  match regexpCompile (x ++ " Version: version.Info{(.*)}") with
  | .error err => "Error checking Kubernetes version: " ++ err
  | .ok regexVersion =>
    let ss := regexVersion.findString s
    let major := versionMatch regexVersionMajor ss
    let minor := versionMatch regexVersionMinor ss
    if major = "" ∨ minor = "" then
      "Couldn't find " ++ x ++ " version from kubectl output '" ++ s ++ "'"
    else if major ≠ expMajor ∨ minor ≠ expMinor then
      "Unexpected " ++ x ++ " version " ++ major ++ "." ++ minor
    else ""

/-! ## `util.go`: identifiers -/

/-- Go `cleanIDs`. The `range` loop is a fold whose state is the slice `ids`
together with the loop variable `id`; its body assigns the loop variable only. -/
def cleanIDs (list : String) : List String :=
  let list := stringsTrim list ","
  let ids := stringsSplit list ","
  let st := ids.foldl (fun (st : List String × String) id => (st.1, stringsTrim id " ")) (ids, "")
  st.1

/-! ## The outside world and the effects -/

/-- A Go `error` value: one returned by the operating system or the `exec`
package, known by its `Error()` text, or one built by `fmt.Errorf` from a format
and the texts of its arguments. -/
inductive GoError where
  | external (text : String)
  | errorf (format : String) (args : List String)
  deriving DecidableEq, Repr

/-- Result of `os.Stat` as the program looks at it: no error, an error (given by
its text) for which `os.IsNotExist` holds, or another error. -/
inductive StatResult where
  | found
  | notExist (err : String)
  | failed (err : String)
  deriving DecidableEq, Repr

/-- An external call made by the program. -/
inductive Call where
  | stat (path : String)
  | lookPath (file : String)
  | command (argv : List String)
  deriving DecidableEq, Repr

/-- The environment of a run. `warnTag` is the text
`colors[check.WARN].Sprintf("%s", check.WARN)` of the colour table (package
`check` and the colour library are outside this file); `lookPath` is
`exec.LookPath` (`none`: found, otherwise the text of the error);
`commandOutput` is `exec.Command(argv...).Output()`: the captured standard
output and the text of the error, if any. -/
structure Env where
  warnTag : String
  stat : String → StatResult
  lookPath : String → Option String
  commandOutput : List String → String × Option String

/-- Effects of a run, oldest first: the texts written to `os.Stderr`, the errors
handed to `glog.V(1).Info`, the external calls. -/
structure Output where
  stderr : List String
  vlog : List GoError
  calls : List Call
  deriving DecidableEq, Repr

/-- No effect yet. -/
def Output.empty : Output := ⟨[], [], []⟩

/-- Record an external call. -/
def Output.call (o : Output) (c : Call) : Output :=
  { o with calls := o.calls ++ [c] }

/-- Go `printlnWarn`: one write of `[<tag>] <msg>` and a line feed. -/
def printlnWarn (env : Env) (msg : String) (o : Output) : Output :=
  { o with stderr := o.stderr ++ ["[" ++ env.warnTag ++ "] " ++ msg ++ "\n"] }

/-- Go `sprintlnWarn`: the text `[<tag>] <msg>`, without a line feed. -/
def sprintlnWarn (env : Env) (msg : String) : String :=
  "[" ++ env.warnTag ++ "] " ++ msg

/-- Go `continueWithError`: the error goes to the verbose log, a non-empty `msg`
is written to standard error followed by a line feed; the result is `""`. -/
def continueWithError (err : Option GoError) (msg : String) (o : Output) : String × Output :=
  let o1 : Output :=
    match err with
    | some e => { o with vlog := o.vlog ++ [e] }
    | none => o
  let o2 : Output :=
    if msg ≠ "" then { o1 with stderr := o1.stderr ++ [msg ++ "\n"] } else o1
  ("", o2)

/-! ## `util.go`: configuration files -/

/-- Body of the loop of `verifyConf`; the state is `missing` and the effects. -/
def verifyConfStep (env : Env) (st : String × Output) (c : String) : String × Output :=
  let o := st.2.call (.stat c)
  match env.stat c with
  | .notExist err => (st.1 ++ (c ++ ", "), (continueWithError (some (.external err)) "" o).2)
  | .found => (st.1, o)
  | .failed _ => (st.1, o)

/-- Go `verifyConf`. -/
def verifyConf (env : Env) (confPath : List String) (o : Output) : Output :=
  let st := confPath.foldl (verifyConfStep env) ("", o)
  let missing := st.1
  if missing.length > 0 then
    printlnWarn env ("Missing kubernetes config files: " ++ stringsTrim missing ", ") st.2
  else st.2

/-! ## `util.go`: binaries -/

/-- Local variables of `verifyBin` during its first loop, and the effects. -/
structure BinState where
  binSlice : List String
  bin : String
  missing : String
  out : Output

/-- Body of the first loop of `verifyBin`. -/
def verifyBinStep (env : Env) (st : BinState) (b : String) : BinState :=
  let err := env.lookPath b
  let o := st.out.call (.lookPath b)
  let bin := st.bin ++ "," ++ b
  let binSlice := st.binSlice ++ [b]
  match err with
  | some e =>
    ⟨binSlice, bin, st.missing ++ (b ++ ", "), (continueWithError (some (.external e)) "" o).2⟩
  | none => ⟨binSlice, bin, st.missing, o⟩

/-- Body of the second loop of `verifyBin`; the state is `notRunning`. -/
def notRunningStep (out : String) (notRunning : String) (b : String) : String :=
  let matched := stringsContains out b
  if !matched then notRunning ++ (b ++ ", ") else notRunning

/-- Rendering of `cmd.Args` by the `%s` verb. -/
def argsText (argv : List String) : String :=
  "[" ++ " ".intercalate argv ++ "]"

/-- Go `verifyBin`. -/
def verifyBin (env : Env) (binPath : List String) (o : Output) : Output :=
  let st := binPath.foldl (verifyBinStep env) ⟨[], "", "", o⟩
  let bin := stringsTrim st.bin ","
  let argv := ["ps", "-C", bin, "-o", "cmd", "--no-headers"]
  let res := env.commandOutput argv
  let o1 := st.out.call (.command argv)
  let out := res.1
  let o2 :=
    match res.2 with
    | some err => (continueWithError (some (.errorf "%s: %s" [argsText argv, err])) "" o1).2
    | none => o1
  let notRunning := st.binSlice.foldl (notRunningStep out) ""
  let o3 :=
    if st.missing.length > 0 then
      printlnWarn env ("Missing kubernetes binaries: " ++ stringsTrim st.missing ", ") o2
    else o2
  if notRunning.length > 0 then
    printlnWarn env ("Kubernetes binaries not running: " ++ stringsTrim notRunning ", ") o3
  else o3

/-! ## `util.go`: version of the cluster tooling -/

/-- Go `verifyKubeVersion`. -/
def verifyKubeVersion (env : Env) (major minor : String) (o : Output) : Output :=
  let o1 := o.call (.lookPath "kubectl")
  match env.lookPath "kubectl" with
  | some err =>
    (continueWithError (some (.external err))
      (sprintlnWarn env "Kubernetes version check skipped") o1).2
  | none =>
    let res := env.commandOutput ["kubectl", "version"]
    let o2 := o1.call (.command ["kubectl", "version"])
    match res.2 with
    | some err =>
      let s := "Kubernetes version check skipped with error " ++ err
      (continueWithError (some (.external err)) (sprintlnWarn env s) o2).2
    | none =>
      let out := res.1
      let msg := checkVersion "Client" out major minor
      let o3 := if msg ≠ "" then (continueWithError (some (.errorf msg [])) msg o2).2 else o2
      let msg2 := checkVersion "Server" out major minor
      if msg2 ≠ "" then (continueWithError (some (.errorf msg2 [])) msg2 o3).2 else o3

/-! ## Vocabulary of the specification -/

/-- Go `strings.Join(elems, sep)`. -/
def stringsJoin : List String → String → String
  | [], _ => ""
  | [a], _ => a
  | a :: b :: rest, sep => a ++ sep ++ stringsJoin (b :: rest) sep

/-- The writes to standard error made from state `before` to state `after`. -/
def newStderr (before after : Output) : List String :=
  after.stderr.drop before.stderr.length

/-- The line `printlnWarn` writes for a message. -/
def warnLine (env : Env) (msg : String) : String :=
  "[" ++ env.warnTag ++ "] " ++ msg ++ "\n"

/-- The diagnostic of a category: nothing for no entry, otherwise one WARN line
with the entries joined by `", "`, commas and spaces trimmed at both ends. -/
def report (env : Env) (title : String) (entries : List String) : List String :=
  if entries = [] then []
  else [warnLine env (title ++ stringsTrim (stringsJoin entries ", ") ", ")]

/-- Does `os.Stat` report "does not exist" for the path? -/
def isMissing (env : Env) (c : String) : Bool :=
  match env.stat c with
  | .notExist _ => true
  | _ => false

/-- Does `exec.LookPath` fail for the name? -/
def unresolved (env : Env) (b : String) : Bool :=
  (env.lookPath b).isSome

/-- Is the name no substring of the process listing? -/
def absent (out : String) (b : String) : Bool :=
  !stringsContains out b

/-- The arguments of the `ps` call of `verifyBin`. -/
def psArgv (binPath : List String) : List String :=
  ["ps", "-C", stringsTrim (binPath.foldl (fun bin b => bin ++ "," ++ b) "") ",",
    "-o", "cmd", "--no-headers"]

/-- Does the text begin or end with a character of the cutset? -/
def touchesCutset (cutset : String) (p : String) : Bool :=
  (p.data.head?.map (inCutset cutset)).getD false ||
    (p.data.getLast?.map (inCutset cutset)).getD false

/-! ## Auxiliary definitions of the proofs -/

/-- Every entry followed by `", "`: the text the loops accumulate. -/
def suffixed : List String → String
  | [] => ""
  | e :: rest => (e ++ ", ") ++ suffixed rest

/-- The items of a literal text. -/
def lits (w : List Char) : List Item :=
  w.map (fun c => Item.one (.lit c))

/-- The text consumed by the items of a literal text. -/
def singles (w : List Char) : List (List Char) :=
  w.map (fun c => [c])

/-- The items after the subject's literal text in the pattern of `checkVersion`. -/
def infoTail : List Item :=
  [Item.gopen, Item.star .any, Item.gclose, Item.one (.lit '}')]

/-- The items after the marker in `regexVersionMajor` and `regexVersionMinor`. -/
def digitsTail : List Item :=
  [Item.gopen, Item.one (.range '0' '9'), Item.star (.range '0' '9'), Item.gclose,
    Item.one (.lit '"')]

/-- The version fragment `<x> Version: version.Info{<a>Major:"<M>"<b>Minor:"<m>"<c>}`. -/
def fragment (x a M b m c : String) : String :=
  x ++ " Version: version.Info\x7b" ++ a ++ "Major:\"" ++ M ++ "\"" ++ b ++ "Minor:\"" ++ m ++
    "\"" ++ c ++ "\x7d"

/-- A non-empty text of decimal digits. -/
def isDigits (s : String) : Prop :=
  s ≠ "" ∧ ∀ d ∈ s.data, d.isDigit = true

instance isDigits.decidable (s : String) : Decidable (isDigits s) :=
  inferInstanceAs (Decidable (s ≠ "" ∧ ∀ d ∈ s.data, d.isDigit = true))

/-- The text has none of the two characters. -/
def avoids (s : String) (c1 c2 : Char) : Prop :=
  ∀ d ∈ s.data, d ≠ c1 ∧ d ≠ c2

instance avoids.decidable (s : String) (c1 c2 : Char) : Decidable (avoids s c1 c2) :=
  inferInstanceAs (Decidable (∀ d ∈ s.data, d ≠ c1 ∧ d ≠ c2))

/-- The text between the braces of a fragment. -/
def fragmentBody (a M b m c : String) : List Char :=
  a.data ++ ("Major:\"".data ++ (M.data ++ '"' :: (b.data ++ ("Minor:\"".data ++
    (m.data ++ '"' :: c.data)))))

/-- An entry that is not empty and neither begins nor ends with a comma or a space. -/
def plainEntry (b : String) : Prop :=
  b ≠ "" ∧ touchesCutset ", " b = false

instance plainEntry.decidable (b : String) : Decidable (plainEntry b) :=
  inferInstanceAs (Decidable (b ≠ "" ∧ touchesCutset ", " b = false))

/-! ## Concrete environments -/

/-- Nothing exists, nothing resolves, and `ps` fails without output. -/
def envBare : Env :=
  ⟨"WARN", fun _ => .notExist "no such file or directory",
    fun _ => some "executable file not found in $PATH", fun _ => ("", some "exit status 1")⟩

/-- Only `kubelet` resolves, and it runs. -/
def envKubelet : Env :=
  ⟨"WARN", fun _ => .found,
    fun b => if b = "kubelet" then none else some "executable file not found in $PATH",
    fun _ => ("/usr/bin/kubelet --config=/var/lib/kubelet/config.yaml\n", none)⟩

/-- Every name resolves, and `ps` fails without output. -/
def envPsFails : Env :=
  ⟨"WARN", fun _ => .found, fun _ => none, fun _ => ("", some "exit status 1")⟩

/-- `kubectl version` reports client 1.20 and server 1.21. -/
def envKubectl : Env :=
  ⟨"WARN", fun _ => .found, fun _ => none, fun _ =>
    ("Client Version: version.Info\x7bMajor:\"1\", Minor:\"20\"\x7d\n" ++
      "Server Version: version.Info\x7bMajor:\"1\", Minor:\"21\"\x7d\n", none)⟩

/-- `kubectl` is not on the search path. -/
def envNoKubectl : Env :=
  ⟨"WARN", fun _ => .found, fun _ => some "executable file not found in $PATH",
    fun _ => ("", some "exit status 1")⟩

/-! ## Lemmas on the string functions -/

theorem data_lit_sep : (", " : String).data = [',', ' '] := rfl

theorem string_ne_empty_iff (s : String) : s ≠ "" ↔ s.data ≠ [] := by
  constructor
  · intro h hd
    apply h
    exact String.ext hd
  · intro h hs
    apply h
    rw [hs]

theorem string_length_pos_iff (s : String) : s.length > 0 ↔ s.data ≠ [] := by
  rw [String.length]
  exact List.length_pos

/-- Trimming commas and spaces forgets a final `", "`. -/
theorem stringsTrim_append_sep (s : String) :
    stringsTrim (s ++ ", ") ", " = stringsTrim s ", " := by
  have h : (s ++ ", ").data = (s.data ++ [',']) ++ [' '] := by
    simp [String.data_append, data_lit_sep]
  unfold stringsTrim
  rw [h, List.rdropWhile_concat_pos _ _ _ (by decide), List.rdropWhile_concat_pos _ _ _ (by decide)]

theorem suffixed_eq_join (e : String) (l : List String) :
    suffixed (e :: l) = stringsJoin (e :: l) ", " ++ ", " := by
  induction l generalizing e with
  | nil => simp [suffixed, stringsJoin]
  | cons b rest ih =>
    rw [suffixed, ih b, stringsJoin]
    simp [String.append_assoc]

theorem suffixed_data_ne_nil (e : String) (l : List String) : (suffixed (e :: l)).data ≠ [] := by
  simp [suffixed, String.data_append, data_lit_sep]

theorem stringsTrim_suffixed (l : List String) :
    stringsTrim (suffixed l) ", " = stringsTrim (stringsJoin l ", ") ", " := by
  cases l with
  | nil => rfl
  | cons e rest => rw [suffixed_eq_join, stringsTrim_append_sep]

theorem newStderr_append (o o' : Output) (d : List String) (h : o'.stderr = o.stderr ++ d) :
    newStderr o o' = d := by
  simp [newStderr, h]

theorem continueWithError_stderr (err : Option GoError) (msg : String) (o : Output)
    (h : msg ≠ "") : (continueWithError err msg o).2.stderr = o.stderr ++ [msg ++ "\n"] := by
  cases err <;> simp [continueWithError, h]

/-! ## Lemmas on `verifyConf` -/

theorem verifyConf_loop (env : Env) (confPath : List String) (m : String) (o : Output) :
    (confPath.foldl (verifyConfStep env) (m, o)).1 = m ++ suffixed (confPath.filter (isMissing env)) ∧
    (confPath.foldl (verifyConfStep env) (m, o)).2.stderr = o.stderr ∧
    (confPath.foldl (verifyConfStep env) (m, o)).2.calls = o.calls ++ confPath.map Call.stat := by
  induction confPath generalizing m o with
  | nil => simp [suffixed]
  | cons c rest ih =>
    rw [List.foldl_cons]
    cases hs : env.stat c with
    | found =>
      have hstep : verifyConfStep env (m, o) c = (m, o.call (.stat c)) := by
        simp [verifyConfStep, hs]
      have hm : isMissing env c = false := by simp [isMissing, hs]
      rw [hstep]
      obtain ⟨h1, h2, h3⟩ := ih m (o.call (.stat c))
      rw [h1, h2, h3]
      simp [List.filter_cons, hm, Output.call]
    | failed e =>
      have hstep : verifyConfStep env (m, o) c = (m, o.call (.stat c)) := by
        simp [verifyConfStep, hs]
      have hm : isMissing env c = false := by simp [isMissing, hs]
      rw [hstep]
      obtain ⟨h1, h2, h3⟩ := ih m (o.call (.stat c))
      rw [h1, h2, h3]
      simp [List.filter_cons, hm, Output.call]
    | notExist e =>
      have hstep : verifyConfStep env (m, o) c =
          (m ++ (c ++ ", "), (continueWithError (some (.external e)) "" (o.call (.stat c))).2) := by
        simp [verifyConfStep, hs]
      have hm : isMissing env c = true := by simp [isMissing, hs]
      rw [hstep]
      obtain ⟨h1, h2, h3⟩ := ih (m ++ (c ++ ", "))
        (continueWithError (some (.external e)) "" (o.call (.stat c))).2
      rw [h1, h2, h3]
      simp [List.filter_cons, hm, suffixed, String.append_assoc, continueWithError, Output.call]

/-- The writes of `verifyConf`: the report of the paths that do not exist. -/
theorem verifyConf_stderr (env : Env) (confPath : List String) (o : Output) :
    (verifyConf env confPath o).stderr =
      o.stderr ++ report env "Missing kubernetes config files: " (confPath.filter (isMissing env)) := by
  obtain ⟨h1, h2, _⟩ := verifyConf_loop env confPath "" o
  unfold verifyConf
  simp only []
  rw [h1]
  cases hl : confPath.filter (isMissing env) with
  | nil =>
    have : ¬ (("" : String) ++ suffixed []).length > 0 := by decide
    rw [if_neg this, h2]
    simp [report]
  | cons e rest =>
    have hpos : (("" : String) ++ suffixed (e :: rest)).length > 0 := by
      rw [string_length_pos_iff]
      simpa using suffixed_data_ne_nil e rest
    rw [if_pos hpos]
    have he : ("" : String) ++ suffixed (e :: rest) = suffixed (e :: rest) := by
      apply String.ext; simp
    simp [printlnWarn, h2, report, warnLine, he, stringsTrim_suffixed]

theorem verifyConf_new (env : Env) (confPath : List String) (o : Output) :
    newStderr o (verifyConf env confPath o) =
      report env "Missing kubernetes config files: " (confPath.filter (isMissing env)) :=
  newStderr_append _ _ _ (verifyConf_stderr env confPath o)

theorem report_length_le (env : Env) (title : String) (l : List String) :
    (report env title l).length ≤ 1 := by
  unfold report; split <;> simp

theorem report_eq_nil_iff (env : Env) (title : String) (l : List String) :
    report env title l = [] ↔ l = [] := by
  unfold report; split <;> simp [*]

/-! ## Lemmas on `verifyBin` -/

theorem empty_append_string (s : String) : ("" : String) ++ s = s := by
  apply String.ext; simp

theorem verifyBin_loop (env : Env) (binPath : List String) (st : BinState) :
    (binPath.foldl (verifyBinStep env) st).binSlice = st.binSlice ++ binPath ∧
    (binPath.foldl (verifyBinStep env) st).bin =
      binPath.foldl (fun bin b => bin ++ "," ++ b) st.bin ∧
    (binPath.foldl (verifyBinStep env) st).missing =
      st.missing ++ suffixed (binPath.filter (unresolved env)) ∧
    (binPath.foldl (verifyBinStep env) st).out.stderr = st.out.stderr ∧
    (binPath.foldl (verifyBinStep env) st).out.calls =
      st.out.calls ++ binPath.map Call.lookPath := by
  induction binPath generalizing st with
  | nil => simp [suffixed]
  | cons b rest ih =>
    rw [List.foldl_cons]
    obtain ⟨h1, h2, h3, h4, h5⟩ := ih (verifyBinStep env st b)
    rw [h1, h2, h3, h4, h5]
    cases hl : env.lookPath b with
    | none =>
      simp [verifyBinStep, hl, unresolved, List.filter_cons, Output.call]
    | some e =>
      simp [verifyBinStep, hl, unresolved, List.filter_cons, Output.call, suffixed,
        String.append_assoc, continueWithError]

theorem notRunning_loop (out : String) (names : List String) (acc : String) :
    names.foldl (notRunningStep out) acc = acc ++ suffixed (names.filter (absent out)) := by
  induction names generalizing acc with
  | nil => apply String.ext; simp [suffixed]
  | cons b rest ih =>
    rw [List.foldl_cons, ih]
    cases hc : stringsContains out b <;>
      simp [notRunningStep, hc, absent, List.filter_cons, suffixed, String.append_assoc]

theorem suffixed_length_pos_iff (l : List String) : (suffixed l).length > 0 ↔ l ≠ [] := by
  cases l with
  | nil => simp [suffixed]
  | cons e rest =>
    rw [string_length_pos_iff]
    simpa using suffixed_data_ne_nil e rest

theorem printlnWarn_report (env : Env) (title : String) (l : List String) (o : Output) :
    (if (suffixed l).length > 0 then printlnWarn env (title ++ stringsTrim (suffixed l) ", ") o
      else o).stderr = o.stderr ++ report env title l := by
  by_cases h : l = []
  · subst h; simp [suffixed, report]
  · rw [if_pos ((suffixed_length_pos_iff l).2 h)]
    simp [printlnWarn, report, h, warnLine, stringsTrim_suffixed]

theorem printlnWarn_report_rest (env : Env) (title : String) (l : List String) (o : Output) :
    (if (suffixed l).length > 0 then printlnWarn env (title ++ stringsTrim (suffixed l) ", ") o
      else o).calls = o.calls := by
  split <;> simp [printlnWarn]

/-- The writes of `verifyBin`: the report of the unresolved names, then the report
of the names absent from the captured process listing. -/
theorem verifyBin_stderr (env : Env) (binPath : List String) (o : Output) :
    (verifyBin env binPath o).stderr =
      o.stderr ++ report env "Missing kubernetes binaries: " (binPath.filter (unresolved env)) ++
        report env "Kubernetes binaries not running: "
          (binPath.filter (absent (env.commandOutput (psArgv binPath)).1)) := by
  obtain ⟨h1, h2, h3, h4, _⟩ := verifyBin_loop env binPath ⟨[], "", "", o⟩
  unfold verifyBin
  simp only []
  rw [h1, h2, h3, notRunning_loop]
  simp only [List.nil_append, empty_append_string]
  rw [printlnWarn_report, printlnWarn_report]
  have hps : ["ps", "-C", stringsTrim (binPath.foldl (fun bin b => bin ++ "," ++ b) "") ",",
      "-o", "cmd", "--no-headers"] = psArgv binPath := rfl
  rw [hps]
  generalize (env.commandOutput (psArgv binPath)).2 = r
  cases r <;> simp [continueWithError, Output.call, h4]

/-- The external calls of `verifyBin`: one path resolution per name, in input
order, then the process listing. -/
theorem verifyBin_calls (env : Env) (binPath : List String) (o : Output) :
    (verifyBin env binPath o).calls =
      o.calls ++ binPath.map Call.lookPath ++ [Call.command (psArgv binPath)] := by
  obtain ⟨h1, h2, h3, _, h5⟩ := verifyBin_loop env binPath ⟨[], "", "", o⟩
  unfold verifyBin
  simp only []
  rw [h1, h2, h3, notRunning_loop]
  simp only [List.nil_append, empty_append_string]
  rw [printlnWarn_report_rest, printlnWarn_report_rest]
  have hps : ["ps", "-C", stringsTrim (binPath.foldl (fun bin b => bin ++ "," ++ b) "") ",",
      "-o", "cmd", "--no-headers"] = psArgv binPath := rfl
  rw [hps]
  generalize (env.commandOutput (psArgv binPath)).2 = r
  cases r <;> simp [continueWithError, Output.call, h5]

/-! ## `strings.Contains` and infixes; trimming keeps inner entries -/

theorem containsAux_iff (sub l : List Char) : containsAux sub l = true ↔ sub <:+: l := by
  induction l with
  | nil =>
    simp [containsAux, List.isPrefixOf_iff_prefix]
  | cons c cs ih =>
    rw [containsAux, Bool.or_eq_true, ih, List.isPrefixOf_iff_prefix, List.infix_cons_iff]

theorem stringsContains_iff (s sub : String) :
    stringsContains s sub = true ↔ sub.data <:+: s.data :=
  containsAux_iff _ _

/-- Dropping a leading run leaves untouched a block whose first character stays. -/
theorem dropWhile_keeps (q : Char → Bool) (h : Char) (t : List Char) (hq : q h = false)
    (a : List Char) : ∃ a', (a ++ h :: t).dropWhile q = a' ++ h :: t := by
  induction a with
  | nil => exact ⟨[], by simp [List.dropWhile, hq]⟩
  | cons x xs ih =>
    by_cases hx : q x = true
    · obtain ⟨a', ha⟩ := ih
      exact ⟨a', by simp [List.dropWhile, hx, ha]⟩
    · exact ⟨x :: xs, by simp [List.dropWhile, hx]⟩

theorem rdropWhile_keeps (q : Char → Bool) (l : Char) (t : List Char) (hq : q l = false)
    (b : List Char) : ∃ b', (t ++ [l] ++ b).rdropWhile q = t ++ [l] ++ b' := by
  induction b using List.reverseRecOn with
  | nil => exact ⟨[], by simp [List.rdropWhile_concat, hq]⟩
  | append_singleton bs x ih =>
    by_cases hx : q x = true
    · obtain ⟨b', hb⟩ := ih
      refine ⟨b', ?_⟩
      rw [← List.append_assoc, List.rdropWhile_concat_pos _ _ _ hx, hb]
    · refine ⟨bs ++ [x], ?_⟩
      rw [← List.append_assoc, List.rdropWhile_concat_neg _ _ _ hx]

theorem trim_keeps (q : Char → Bool) (pd : List Char) (hne : pd ≠ [])
    (hhead : q (pd.head hne) = false) (hlast : q (pd.getLast hne) = false) (a b : List Char) :
    ∃ a' b', ((a ++ pd ++ b).rdropWhile q).dropWhile q = a' ++ pd ++ b' := by
  obtain ⟨b', hb'⟩ := rdropWhile_keeps q (pd.getLast hne) (a ++ pd.dropLast) hlast b
  have h1 : a ++ pd.dropLast ++ [pd.getLast hne] = a ++ pd := by
    rw [List.append_assoc, List.dropLast_append_getLast hne]
  rw [h1] at hb'
  rw [hb']
  cases pd with
  | nil => exact absurd rfl hne
  | cons h t =>
    obtain ⟨a', ha'⟩ := dropWhile_keeps q h (t ++ b') (by simpa using hhead) a
    refine ⟨a', b', ?_⟩
    have h2 : a ++ h :: t ++ b' = a ++ h :: (t ++ b') := by simp
    rw [h2, ha']
    simp

/-- A block inside a text survives trimming when it is empty or neither begins nor
ends with a cutset character. -/
theorem infix_trim (cutset : String) (p : String) (hp : touchesCutset cutset p = false)
    (a b : List Char) :
    p.data <:+: (stringsTrim ⟨a ++ p.data ++ b⟩ cutset).data := by
  by_cases hne : p.data = []
  · rw [hne]; exact List.nil_infix
  · have hhead : inCutset cutset (p.data.head hne) = false := by
      have := (Bool.or_eq_false_iff.1 hp).1
      rw [List.head?_eq_head hne] at this
      simpa using this
    have hlast : inCutset cutset (p.data.getLast hne) = false := by
      have := (Bool.or_eq_false_iff.1 hp).2
      rw [List.getLast?_eq_getLast _ hne] at this
      simpa using this
    obtain ⟨a', b', hab⟩ := trim_keeps (inCutset cutset) p.data hne hhead hlast a b
    exact ⟨a', b', by simp only [stringsTrim]; exact hab.symm⟩

theorem suffixed_split (p : String) (l : List String) (h : p ∈ l) :
    ∃ a b, (suffixed l).data = a ++ p.data ++ b := by
  induction l with
  | nil => simp at h
  | cons e rest ih =>
    rcases List.mem_cons.1 h with rfl | hmem
    · exact ⟨[], ", ".data ++ (suffixed rest).data, by simp [suffixed, String.data_append]⟩
    · obtain ⟨a, b, hab⟩ := ih hmem
      exact ⟨e.data ++ ", ".data ++ a, b, by simp [suffixed, String.data_append, hab]⟩

/-- An entry that neither begins nor ends with a comma or a space occurs in the
trimmed list of a report. -/
theorem entry_in_trimmed (p : String) (l : List String) (h : p ∈ l)
    (hp : touchesCutset ", " p = false) :
    p.data <:+: (stringsTrim (stringsJoin l ", ") ", ").data := by
  rw [← stringsTrim_suffixed]
  obtain ⟨a, b, hab⟩ := suffixed_split p l h
  have : suffixed l = ⟨a ++ p.data ++ b⟩ := String.ext hab
  rw [this]
  exact infix_trim ", " p hp a b

theorem entry_in_warnLine (env : Env) (title : String) (p : String) (l : List String)
    (h : p ∈ l) (hp : touchesCutset ", " p = false) :
    stringsContains (warnLine env (title ++ stringsTrim (stringsJoin l ", ") ", ")) p = true := by
  rw [stringsContains_iff]
  obtain ⟨a, b, hab⟩ := entry_in_trimmed p l h hp
  refine ⟨("[" ++ env.warnTag ++ "] " ++ title).data ++ a, b ++ "\n".data, ?_⟩
  simp only [warnLine, String.data_append, ← hab]
  simp [List.append_assoc]

/-! ## Lemmas on `cleanIDs` -/

theorem range_loop_keeps {α β : Type} (f : β → β) (ids : List β) (a : α) (x : β) :
    (ids.foldl (fun (st : α × β) id => (st.1, f id)) (a, x)).1 = a := by
  induction ids generalizing x with
  | nil => rfl
  | cons i rest ih => exact ih (f i)

theorem splitAux_ne_nil (sep : List Char) (skip : Nat) (cur s : List Char) :
    splitAux sep skip cur s ≠ [] := by
  induction s generalizing skip cur with
  | nil => cases skip <;> simp [splitAux]
  | cons c cs ih =>
    cases skip with
    | zero =>
      rw [splitAux]
      split
      · simp
      · exact ih _ _
    | succ n =>
      rw [splitAux]
      exact ih _ _

/-! ## Lemmas on the matcher -/

theorem flatten_singles (w : List Char) : (singles w).flatten = w := by
  induction w with
  | nil => rfl
  | cons c cs ih => simp [singles] at ih ⊢; exact ih

theorem matchHere_lits (w : List Char) (items : List Item) (s : List Char) :
    matchHere (lits w ++ items) (w ++ s) = (matchHere items s).map (singles w ++ ·) := by
  induction w with
  | nil => simp [lits, singles]
  | cons c cs ih =>
    have : matchHere (lits (c :: cs) ++ items) (c :: cs ++ s) =
        (matchHere (lits cs ++ items) (cs ++ s)).map ([c] :: ·) := by
      simp [lits, matchHere, CharClass.test]
    rw [this, ih]
    cases matchHere items s <;> simp [singles]

theorem matchHere_lits_starts (w : List Char) (items : List Item) (s : List Char)
    (segs : List (List Char)) (h : matchHere (lits w ++ items) s = some segs) : w <+: s := by
  induction w generalizing s segs with
  | nil => exact List.nil_prefix
  | cons c cs ih =>
    cases s with
    | nil => simp [lits, matchHere] at h
    | cons d ds =>
      simp only [lits, List.map_cons, List.cons_append, matchHere] at h
      by_cases hd : (CharClass.lit c).test d = true
      · rw [if_pos hd] at h
        have hdc : d = c := by simpa [CharClass.test] using hd
        cases hm : matchHere (List.map (fun c => Item.one (.lit c)) cs ++ items) ds with
        | none => simp [hm] at h
        | some segs' =>
          have := ih ds segs' hm
          rw [hdc]
          exact (List.prefix_cons_inj c).2 this
      · rw [if_neg hd] at h
        simp at h

theorem findFrom_of_matchHere (items : List Item) (s : List Char) (segs : List (List Char))
    (h : matchHere items s = some segs) : findFrom items s = some segs := by
  cases s with
  | nil => simpa [findFrom] using h
  | cons d ds => simp [findFrom, h]

theorem findFrom_some (items : List Item) (s : List Char) (segs : List (List Char))
    (h : findFrom items s = some segs) : ∃ u, u <:+ s ∧ matchHere items u = some segs := by
  induction s with
  | nil => exact ⟨[], List.suffix_refl _, by simpa [findFrom] using h⟩
  | cons d ds ih =>
    rw [findFrom] at h
    cases hm : matchHere items (d :: ds) with
    | some segs' =>
      rw [hm] at h
      exact ⟨d :: ds, List.suffix_refl _, by rw [hm]; exact h⟩
    | none =>
      rw [hm] at h
      obtain ⟨u, hu, hmu⟩ := ih h
      exact ⟨u, hu.trans (List.suffix_cons d ds), hmu⟩

/-- A pattern that begins with a literal text has no match in an input that does
not contain the text. -/
theorem findFrom_none_of_absent (w : List Char) (items : List Item) (s : List Char)
    (h : ¬ w <:+: s) : findFrom (lits w ++ items) s = none := by
  cases hf : findFrom (lits w ++ items) s with
  | none => rfl
  | some segs =>
    exfalso
    obtain ⟨u, hu, hmu⟩ := findFrom_some _ _ _ hf
    exact h ((matchHere_lits_starts w items u segs hmu).isInfix.trans hu.isInfix)

theorem findFrom_skip_one (items : List Item) (d : Char) (s : List Char)
    (h : matchHere items (d :: s) = none) : findFrom items (d :: s) = findFrom items s := by
  rw [findFrom, h]

/-- The search passes over characters that differ from the first, literal, item. -/
theorem findFrom_skip (h : Char) (items : List Item) (pre s : List Char)
    (hpre : ∀ d ∈ pre, d ≠ h) :
    findFrom (Item.one (.lit h) :: items) (pre ++ s) = findFrom (Item.one (.lit h) :: items) s := by
  induction pre with
  | nil => rfl
  | cons d ds ih =>
    have hd : d ≠ h := hpre d (List.mem_cons_self _ _)
    rw [List.cons_append, findFrom_skip_one, ih (fun x hx => hpre x (List.mem_cons_of_mem _ hx))]
    simp [matchHere, CharClass.test, hd]

/-- A greedy repetition takes a run of accepted characters on top of what it takes
after the run. -/
theorem matchStar_run {β : Type} (c : CharClass) (k : List Char → Option β) (run rest seg : List Char)
    (r : β) (hrun : ∀ d ∈ run, c.test d = true) (h : matchStar c k rest = some (seg, r)) :
    matchStar c k (run ++ rest) = some (run ++ seg, r) := by
  induction run with
  | nil => simpa using h
  | cons d ds ih =>
    have hd : c.test d = true := hrun d (List.mem_cons_self _ _)
    rw [List.cons_append, matchStar, if_pos hd,
      ih (fun x hx => hrun x (List.mem_cons_of_mem _ hx))]
    rfl

/-- A greedy repetition takes nothing in front of a character it does not accept. -/
theorem matchStar_stop {β : Type} (c : CharClass) (k : List Char → Option β) (d : Char)
    (ds : List Char) (r : β) (hd : c.test d = false) (h : k (d :: ds) = some r) :
    matchStar c k (d :: ds) = some ([], r) := by
  simp [matchStar, hd, h]

/-! ### Decimal digits -/

theorem digit_range (c : Char) (h : c.isDigit = true) : (CharClass.range '0' '9').test c = true := by
  simp only [Char.isDigit, Bool.and_eq_true, decide_eq_true_eq] at h
  simp only [CharClass.test, Bool.and_eq_true, decide_eq_true_eq]
  exact ⟨h.1, h.2⟩

theorem digit_ne (c : Char) (h : c.isDigit = true) (x : Char) (hx : x.isDigit = false) : c ≠ x := by
  intro hcx
  rw [hcx, hx] at h
  exact Bool.noConfusion h

/-! ## The patterns of `checkVersion` -/

theorem compile_client :
    regexpCompile ("Client" ++ " Version: version.Info{(.*)}") =
      .ok ⟨lits "Client Version: version".data ++ Item.one .any :: (lits "Info\x7b".data ++ infoTail)⟩ :=
  rfl

theorem compile_server :
    regexpCompile ("Server" ++ " Version: version.Info{(.*)}") =
      .ok ⟨lits "Server Version: version".data ++ Item.one .any :: (lits "Info\x7b".data ++ infoTail)⟩ :=
  rfl

theorem major_items : regexVersionMajor.items = lits "Major:\"".data ++ digitsTail := rfl

theorem minor_items : regexVersionMinor.items = lits "Minor:\"".data ++ digitsTail := rfl

theorem matchHere_gopen (rest : List Item) (s : List Char) :
    matchHere (Item.gopen :: rest) s = (matchHere rest s).map ([] :: ·) := by
  rw [matchHere]

theorem matchHere_star (c : CharClass) (rest : List Item) (s : List Char) :
    matchHere (Item.star c :: rest) s =
      (matchStar c (matchHere rest) s).map (fun p => p.1 :: p.2) := by
  rw [matchHere]

theorem matchHere_one (c : CharClass) (rest : List Item) (d : Char) (ds : List Char) :
    matchHere (Item.one c :: rest) (d :: ds) =
      if c.test d then (matchHere rest ds).map ([d] :: ·) else none := by
  rw [matchHere]

/-- The pattern of `checkVersion` matches a whole line `<w1>.Info{<body>}`. -/
theorem matchHere_info (w1 body : List Char) (hbody : ∀ d ∈ body, d ≠ '\n') :
    matchHere (lits w1 ++ Item.one .any :: (lits "Info\x7b".data ++ infoTail))
        (w1 ++ '.' :: ("Info\x7b".data ++ (body ++ ['}']))) =
      some (singles w1 ++ ['.'] :: (singles "Info\x7b".data ++ [[], body, [], ['}']])) := by
  have hstar : matchStar .any (matchHere [Item.gclose, Item.one (.lit '}')]) (body ++ ['}']) =
      some (body ++ [], [[], ['}']]) := by
    apply matchStar_run
    · intro d hd
      simpa [CharClass.test] using hbody d hd
    · rfl
  have htail : matchHere infoTail (body ++ ['}']) = some [[], body, [], ['}']] := by
    rw [infoTail, matchHere_gopen, matchHere_star, hstar]
    simp
  rw [matchHere_lits]
  have hdot : matchHere (Item.one .any :: (lits "Info\x7b".data ++ infoTail))
      ('.' :: ("Info\x7b".data ++ (body ++ ['}']))) =
      (matchHere (lits "Info\x7b".data ++ infoTail) ("Info\x7b".data ++ (body ++ ['}']))).map
        (['.'] :: ·) := by
    simp [matchHere, CharClass.test]
  rw [hdot, matchHere_lits, htail]
  simp

theorem groupTexts_lits (w : List Char) (items : List Item) (segs : List (List Char)) :
    groupTexts (lits w ++ items) (singles w ++ segs) none = groupTexts items segs none := by
  induction w with
  | nil => rfl
  | cons c cs ih => simpa [lits, singles, groupTexts] using ih

/-- After a marker, the digits up to a closing quote are matched and captured. -/
theorem matchHere_digits (w : List Char) (d : Char) (ds rest : List Char)
    (hd : ∀ x ∈ d :: ds, x.isDigit = true) :
    matchHere (lits w ++ digitsTail) (w ++ (d :: ds ++ '"' :: rest)) =
      some (singles w ++ [[], [d], ds, [], ['"']]) := by
  have hstop : matchStar (.range '0' '9') (matchHere [Item.gclose, Item.one (.lit '"')])
      ('"' :: rest) = some ([], [[], ['"']]) := by
    apply matchStar_stop
    · decide
    · simp [matchHere, CharClass.test]
  have hstar : matchStar (.range '0' '9') (matchHere [Item.gclose, Item.one (.lit '"')])
      (ds ++ '"' :: rest) = some (ds ++ [], [[], ['"']]) :=
    matchStar_run _ _ ds _ _ _
      (fun x hx => digit_range x (hd x (List.mem_cons_of_mem _ hx))) hstop
  have hd0 : (CharClass.range '0' '9').test d = true := digit_range d (hd d (List.mem_cons_self _ _))
  rw [matchHere_lits]
  rw [digitsTail, matchHere_gopen, List.cons_append, matchHere_one, if_pos hd0, matchHere_star,
    hstar]
  simp

/-- `versionMatch` on an input whose leftmost match of `<marker><digits>"` is known. -/
theorem versionMatch_of_find (r : Regex) (w : List Char) (hr : r.items = lits w ++ digitsTail)
    (s : String) (d : Char) (ds : List Char)
    (h : findFrom r.items s.data = some (singles w ++ [[], [d], ds, [], ['"']])) :
    versionMatch r s = ⟨d :: ds⟩ := by
  have hg : groupTexts r.items (singles w ++ [[], [d], ds, [], ['"']]) none = [⟨d :: ds⟩] := by
    rw [hr, groupTexts_lits]
    simp [digitsTail, groupTexts]
  simp [versionMatch, Regex.findStringSubmatch, h, hg]

theorem versionMatch_major (pre : List Char) (d : Char) (ds rest : List Char)
    (hpre : ∀ x ∈ pre, x ≠ 'M') (hd : ∀ x ∈ d :: ds, x.isDigit = true) :
    versionMatch regexVersionMajor ⟨pre ++ ("Major:\"".data ++ (d :: ds ++ '"' :: rest))⟩ =
      ⟨d :: ds⟩ := by
  apply versionMatch_of_find _ "Major:\"".data major_items
  rw [major_items]
  show findFrom (Item.one (.lit 'M') :: (lits "ajor:\"".data ++ digitsTail)) _ = _
  rw [findFrom_skip 'M' _ pre _ hpre]
  exact findFrom_of_matchHere _ _ _ (matchHere_digits "Major:\"".data d ds rest hd)

theorem versionMatch_minor (p1 p2 : List Char) (d : Char) (ds rest : List Char)
    (h1 : ∀ x ∈ p1, x ≠ 'M') (h2 : ∀ x ∈ p2, x ≠ 'M')
    (hd : ∀ x ∈ d :: ds, x.isDigit = true) :
    versionMatch regexVersionMinor
      ⟨p1 ++ 'M' :: 'a' :: (p2 ++ ("Minor:\"".data ++ (d :: ds ++ '"' :: rest)))⟩ = ⟨d :: ds⟩ := by
  apply versionMatch_of_find _ "Minor:\"".data minor_items
  rw [minor_items]
  show findFrom (Item.one (.lit 'M') :: (lits "inor:\"".data ++ digitsTail)) _ = _
  rw [findFrom_skip 'M' _ p1 _ h1, findFrom_skip_one]
  · have h2' : ∀ x ∈ 'a' :: p2, x ≠ 'M' := by
      intro x hx
      rcases List.mem_cons.1 hx with rfl | hx
      · decide
      · exact h2 x hx
    have := findFrom_skip 'M' (lits "inor:\"".data ++ digitsTail) ('a' :: p2)
      ("Minor:\"".data ++ (d :: ds ++ '"' :: rest)) h2'
    rw [List.cons_append] at this
    rw [this]
    exact findFrom_of_matchHere _ _ _ (matchHere_digits "Minor:\"".data d ds rest hd)
  · simp [matchHere, lits, CharClass.test]

theorem fragment_data (x a M b m c : String) :
    (fragment x a M b m c).data =
      x.data ++ (" Version: version.Info\x7b".data ++ (fragmentBody a M b m c ++ ['}'])) := by
  simp [fragment, fragmentBody, String.data_append]

theorem isDigits_cons (s : String) (h : isDigits s) :
    ∃ d ds, s.data = d :: ds ∧ ∀ x ∈ d :: ds, x.isDigit = true := by
  obtain ⟨hne, hd⟩ := h
  cases hs : s.data with
  | nil => exact absurd (String.ext hs) hne
  | cons d ds => exact ⟨d, ds, rfl, by rw [← hs]; exact hd⟩

theorem extract_core (x : String) (w1 : List Char)
    (hw : x.data ++ " Version: version.Info\x7b".data = w1 ++ '.' :: "Info\x7b".data)
    (hxM : ∀ d ∈ x.data ++ " Version: version.Info\x7b".data, d ≠ 'M')
    (a M b m c : String) (hM : isDigits M) (hm : isDigits m)
    (ha : avoids a 'M' '\n') (hb : avoids b 'M' '\n') (hcn : avoids c '\n' '\n') :
    (Regex.mk (lits w1 ++ Item.one .any :: (lits "Info\x7b".data ++ infoTail))).findString
        (fragment x a M b m c) = fragment x a M b m c ∧
      versionMatch regexVersionMajor (fragment x a M b m c) = M ∧
      versionMatch regexVersionMinor (fragment x a M b m c) = m := by
  obtain ⟨d, ds, hMd, hMdig⟩ := isDigits_cons M hM
  obtain ⟨e, es, hmd, hmdig⟩ := isDigits_cons m hm
  have hdigM : ∀ y ∈ M.data, y ≠ 'M' ∧ y ≠ '\n' := fun y hy =>
    ⟨digit_ne y (hM.2 y hy) 'M' (by decide), digit_ne y (hM.2 y hy) '\n' (by decide)⟩
  have hdigm : ∀ y ∈ m.data, y ≠ '\n' := fun y hy => digit_ne y (hm.2 y hy) '\n' (by decide)
  -- the whole fragment is the leftmost match of the subject's pattern
  have hbody : ∀ y ∈ fragmentBody a M b m c, y ≠ '\n' :=
    List.forall_mem_append.2 ⟨fun y h => (ha y h).2,
      List.forall_mem_append.2 ⟨by decide,
        List.forall_mem_append.2 ⟨fun y h => (hdigM y h).2,
          List.forall_mem_cons.2 ⟨by decide,
            List.forall_mem_append.2 ⟨fun y h => (hb y h).2,
              List.forall_mem_append.2 ⟨by decide,
                List.forall_mem_append.2 ⟨hdigm,
                  List.forall_mem_cons.2 ⟨by decide, fun y h => (hcn y h).1⟩⟩⟩⟩⟩⟩⟩⟩
  have hdata : (fragment x a M b m c).data =
      w1 ++ '.' :: ("Info\x7b".data ++ (fragmentBody a M b m c ++ ['}'])) := by
    rw [fragment_data, ← List.append_assoc, hw]
    simp
  have hfind : (Regex.mk (lits w1 ++ Item.one .any :: (lits "Info\x7b".data ++ infoTail))).findString
      (fragment x a M b m c) = fragment x a M b m c := by
    unfold Regex.findString
    simp only []
    rw [hdata, findFrom_of_matchHere _ _ _ (matchHere_info w1 _ hbody)]
    apply String.ext
    rw [hdata]
    simp [flatten_singles]
  -- the two numbers
  have hmaj : versionMatch regexVersionMajor (fragment x a M b m c) = M := by
    have : fragment x a M b m c =
        ⟨(x.data ++ " Version: version.Info\x7b".data ++ a.data) ++
          ("Major:\"".data ++ (d :: ds ++ '"' :: (b.data ++ ("Minor:\"".data ++
            (m.data ++ '"' :: (c.data ++ ['}']))))))⟩ := by
      apply String.ext
      rw [fragment_data, fragmentBody, hMd]
      simp
    rw [this, versionMatch_major _ d ds _ _ hMdig]
    · exact String.ext hMd.symm
    · intro y hy
      rcases List.mem_append.1 hy with h | h
      · exact hxM y h
      · exact (ha y h).1
  have hmin : versionMatch regexVersionMinor (fragment x a M b m c) = m := by
    have : fragment x a M b m c =
        ⟨(x.data ++ " Version: version.Info\x7b".data ++ a.data) ++ 'M' :: 'a' ::
          (("jor:\"".data ++ M.data ++ '"' :: b.data) ++ ("Minor:\"".data ++
            (e :: es ++ '"' :: (c.data ++ ['}']))))⟩ := by
      apply String.ext
      rw [fragment_data, fragmentBody, hmd]
      simp
    rw [this, versionMatch_minor _ _ e es _ _ _ hmdig]
    · exact String.ext hmd.symm
    · intro y hy
      rcases List.mem_append.1 hy with h | h
      · exact hxM y h
      · exact (ha y h).1
    · exact List.forall_mem_append.2 ⟨List.forall_mem_append.2 ⟨by decide,
        fun y h => (hdigM y h).1⟩, List.forall_mem_cons.2 ⟨by decide, fun y h => (hb y h).1⟩⟩
  exact ⟨hfind, hmaj, hmin⟩

theorem checkVersion_core (x : String) (w1 : List Char)
    (hc : regexpCompile (x ++ " Version: version.Info{(.*)}") =
      .ok ⟨lits w1 ++ Item.one .any :: (lits "Info\x7b".data ++ infoTail)⟩)
    (hw : x.data ++ " Version: version.Info\x7b".data = w1 ++ '.' :: "Info\x7b".data)
    (hxM : ∀ d ∈ x.data ++ " Version: version.Info\x7b".data, d ≠ 'M')
    (a M b m c : String) (hM : isDigits M) (hm : isDigits m)
    (ha : avoids a 'M' '\n') (hb : avoids b 'M' '\n') (hcn : avoids c '\n' '\n')
    (expMajor expMinor : String) :
    checkVersion x (fragment x a M b m c) expMajor expMinor =
      if expMajor = M ∧ expMinor = m then ""
      else "Unexpected " ++ x ++ " version " ++ M ++ "." ++ m := by
  obtain ⟨hfind, hmaj, hmin⟩ := extract_core x w1 hw hxM a M b m c hM hm ha hb hcn
  unfold checkVersion
  rw [hc]
  simp only [hfind, hmaj, hmin]
  have hM0 : M ≠ "" := hM.1
  have hm0 : m ≠ "" := hm.1
  rw [if_neg (by simp [hM0, hm0])]
  by_cases h : expMajor = M ∧ expMinor = m
  · rw [if_pos h, if_neg]
    rw [h.1, h.2]; simp
  · rw [if_neg h, if_pos]
    by_contra hcon
    apply h
    simp only [not_or, ne_eq, not_not] at hcon
    exact ⟨hcon.1.symm, hcon.2.symm⟩

theorem checkVersion_fragment (x : String) (hx : x = "Client" ∨ x = "Server")
    (a M b m c : String) (hM : isDigits M) (hm : isDigits m)
    (ha : avoids a 'M' '\n') (hb : avoids b 'M' '\n') (hcn : avoids c '\n' '\n')
    (expMajor expMinor : String) :
    checkVersion x (fragment x a M b m c) expMajor expMinor =
      if expMajor = M ∧ expMinor = m then ""
      else "Unexpected " ++ x ++ " version " ++ M ++ "." ++ m := by
  rcases hx with rfl | rfl
  · exact checkVersion_core "Client" "Client Version: version".data compile_client rfl
      (by decide) a M b m c hM hm ha hb hcn expMajor expMinor
  · exact checkVersion_core "Server" "Server Version: version".data compile_server rfl
      (by decide) a M b m c hM hm ha hb hcn expMajor expMinor

theorem extract_fragment (x : String) (hx : x = "Client" ∨ x = "Server")
    (a M b m c : String) (hM : isDigits M) (hm : isDigits m)
    (ha : avoids a 'M' '\n') (hb : avoids b 'M' '\n') (hcn : avoids c '\n' '\n') :
    ∃ r, regexpCompile (x ++ " Version: version.Info{(.*)}") = .ok r ∧
      r.findString (fragment x a M b m c) = fragment x a M b m c ∧
      versionMatch regexVersionMajor (fragment x a M b m c) = M ∧
      versionMatch regexVersionMinor (fragment x a M b m c) = m := by
  rcases hx with rfl | rfl
  · exact ⟨_, compile_client, extract_core "Client" "Client Version: version".data rfl
      (by decide) a M b m c hM hm ha hb hcn⟩
  · exact ⟨_, compile_server, extract_core "Server" "Server Version: version".data rfl
      (by decide) a M b m c hM hm ha hb hcn⟩

theorem trim_self (cutset : String) (s : String) (h : touchesCutset cutset s = false) :
    stringsTrim s cutset = s := by
  apply String.ext
  simp only [stringsTrim]
  by_cases hne : s.data = []
  · rw [hne]; rfl
  · have hhead : inCutset cutset (s.data.head hne) = false := by
      have := (Bool.or_eq_false_iff.1 h).1
      rw [List.head?_eq_head hne] at this
      simpa using this
    have hlast : inCutset cutset (s.data.getLast hne) = false := by
      have := (Bool.or_eq_false_iff.1 h).2
      rw [List.getLast?_eq_getLast _ hne] at this
      simpa using this
    have hr : s.data.rdropWhile (inCutset cutset) = s.data := by
      conv_lhs => rw [← List.dropLast_append_getLast hne]
      rw [List.rdropWhile_concat_neg _ _ _ (by simp [hlast]), List.dropLast_append_getLast hne]
    rw [hr]
    cases hs : s.data with
    | nil => exact absurd hs hne
    | cons c cs =>
      have : inCutset cutset c = false := by simpa [hs] using hhead
      simp [List.dropWhile, this]

theorem join_data_ne_nil (l : List String) (sep : String) (hl : l ≠ [])
    (h : ∀ b ∈ l, b ≠ "") : (stringsJoin l sep).data ≠ [] := by
  cases l with
  | nil => exact absurd rfl hl
  | cons a rest =>
    have ha : a.data ≠ [] := (string_ne_empty_iff a).1 (h a (List.mem_cons_self _ _))
    cases rest with
    | nil => simpa [stringsJoin] using ha
    | cons b rest => simp [stringsJoin, String.data_append, ha]

theorem join_plain (l : List String) (hl : l ≠ []) (h : ∀ b ∈ l, plainEntry b) :
    touchesCutset ", " (stringsJoin l ", ") = false := by
  induction l with
  | nil => exact absurd rfl hl
  | cons a rest ih =>
    have ha := h a (List.mem_cons_self _ _)
    have hane : a.data ≠ [] := (string_ne_empty_iff a).1 ha.1
    cases rest with
    | nil => simpa [stringsJoin] using ha.2
    | cons b rest =>
      have hrest : ∀ x ∈ b :: rest, plainEntry x := fun x hx => h x (List.mem_cons_of_mem _ hx)
      have ih' := ih (by simp) hrest
      have hne : (stringsJoin (b :: rest) ", ").data ≠ [] :=
        join_data_ne_nil _ _ (by simp) (fun x hx => (hrest x hx).1)
      have h1 := (Bool.or_eq_false_iff.1 ha.2).1
      have h2 := (Bool.or_eq_false_iff.1 ih').2
      simp only [touchesCutset, stringsJoin, String.data_append, Bool.or_eq_false_iff]
      constructor
      · rw [List.append_assoc, List.head?_append_of_ne_nil _ hane]
        exact h1
      · rw [List.getLast?_append_of_ne_nil _ hne]
        exact h2

/-- A list of plain entries is reported as the entries joined by `", "`. -/
theorem trim_join_plain (l : List String) (h : ∀ b ∈ l, plainEntry b) :
    stringsTrim (stringsJoin l ", ") ", " = stringsJoin l ", " := by
  cases l with
  | nil => rfl
  | cons a rest => exact trim_self _ _ (join_plain _ (by simp) h)

/-! ## C1, C4, C9: `checkVersion` -/

theorem unexpected_ne_empty (x M m : String) :
    "Unexpected " ++ x ++ " version " ++ M ++ "." ++ m ≠ "" := by
  rw [string_ne_empty_iff]
  simp [String.data_append]

/-- C1: for `x` in `Client`, `Server` and non-empty digit texts `M`, `m`, on the
input `<x> Version: version.Info{Major:"<M>", Minor:"<m>"}` `checkVersion` returns
`""` exactly when the expected texts equal `M` and `m`, and otherwise returns
`Unexpected <x> version <M>.<m>`. -/
theorem checkVersion_exact (x M m expMajor expMinor : String)
    (hx : x = "Client" ∨ x = "Server") (hM : isDigits M) (hm : isDigits m) :
    (checkVersion x (x ++ " Version: version.Info\x7bMajor:\"" ++ M ++ "\", Minor:\"" ++ m ++
        "\"\x7d") expMajor expMinor = "" ↔ expMajor = M ∧ expMinor = m) ∧
      (¬ (expMajor = M ∧ expMinor = m) →
        checkVersion x (x ++ " Version: version.Info\x7bMajor:\"" ++ M ++ "\", Minor:\"" ++ m ++
          "\"\x7d") expMajor expMinor = "Unexpected " ++ x ++ " version " ++ M ++ "." ++ m) := by
  have hs : x ++ " Version: version.Info\x7bMajor:\"" ++ M ++ "\", Minor:\"" ++ m ++ "\"\x7d" =
      fragment x "" M ", " m "" := by
    apply String.ext
    simp [fragment, String.data_append]
  have hcore := checkVersion_fragment x hx "" M ", " m "" hM hm (by intro d hd; simp at hd)
    (by unfold avoids; decide) (by intro d hd; simp at hd) expMajor expMinor
  rw [hs, hcore]
  by_cases h : expMajor = M ∧ expMinor = m
  · simp [h]
  · rw [if_neg h]
    exact ⟨⟨fun he => absurd he (unexpected_ne_empty x M m), fun hh => absurd hh h⟩, fun _ => rfl⟩

/-- C1, at the input of the specification: major `1`, minor `21`. -/
theorem checkVersion_exact_witness :
    checkVersion "Client" "Client Version: version.Info\x7bMajor:\"1\", Minor:\"21\"\x7d"
        "1" "21" = "" ∧
      checkVersion "Client" "Client Version: version.Info\x7bMajor:\"1\", Minor:\"21\"\x7d"
        "1" "20" = "Unexpected Client version 1.21" :=
  ⟨(checkVersion_exact "Client" "1" "21" "1" "21" (Or.inl rfl) ⟨by decide, by decide⟩
      ⟨by decide, by decide⟩).1.2 ⟨rfl, rfl⟩,
    (checkVersion_exact "Client" "1" "21" "1" "20" (Or.inl rfl) ⟨by decide, by decide⟩
      ⟨by decide, by decide⟩).2 (by decide)⟩

/-- C4: when the input does not contain `Server Version:`, `checkVersion` for the
subject `Server` returns `Couldn't find Server version from kubectl output '<s>'`,
whatever the expected texts are. -/
theorem checkVersion_server_absent (s expMajor expMinor : String)
    (h : stringsContains s "Server Version:" = false) :
    checkVersion "Server" s expMajor expMinor =
      "Couldn't find Server version from kubectl output '" ++ s ++ "'" := by
  have hni : ¬ "Server Version:".data <:+: s.data := by
    rw [← stringsContains_iff, h]; simp
  have hfind : findFrom (lits "Server Version:".data ++
      (lits " version".data ++ Item.one .any :: (lits "Info\x7b".data ++ infoTail))) s.data = none :=
    findFrom_none_of_absent _ _ _ hni
  have hss : (Regex.mk (lits "Server Version: version".data ++
      Item.one .any :: (lits "Info\x7b".data ++ infoTail))).findString s = "" := by
    unfold Regex.findString
    simp only []
    have : (lits "Server Version: version".data ++
      Item.one .any :: (lits "Info\x7b".data ++ infoTail)) = lits "Server Version:".data ++
      (lits " version".data ++ Item.one .any :: (lits "Info\x7b".data ++ infoTail)) := rfl
    rw [this, hfind]
  have hmaj : versionMatch regexVersionMajor "" = "" := rfl
  unfold checkVersion
  rw [compile_server]
  simp only [hss, hmaj]
  simp

/-- C4, on an output that has the client line only. -/
theorem checkVersion_server_absent_witness :
    checkVersion "Server" "Client Version: version.Info\x7bMajor:\"1\", Minor:\"21\"\x7d" "1" "21" =
      "Couldn't find Server version from kubectl output '" ++
        "Client Version: version.Info\x7bMajor:\"1\", Minor:\"21\"\x7d" ++ "'" :=
  checkVersion_server_absent _ "1" "21" (by decide)

/-- C9, as stated, fails: on `Client Version: version.Info{Major:"1", Minor:"21+"}`
with expected (`1`, `21`) the minor number is not extracted, and `checkVersion`
returns the "Couldn't find" diagnostic, not `""`. -/
theorem checkVersion_plus_counterexample :
    versionMatch regexVersionMinor
        "Client Version: version.Info\x7bMajor:\"1\", Minor:\"21+\"\x7d" = "" ∧
      checkVersion "Client" "Client Version: version.Info\x7bMajor:\"1\", Minor:\"21+\"\x7d"
        "1" "21" = "Couldn't find Client version from kubectl output " ++
          "'Client Version: version.Info\x7bMajor:\"1\", Minor:\"21+\"\x7d'" ∧
      checkVersion "Client" "Client Version: version.Info\x7bMajor:\"1\", Minor:\"21+\"\x7d"
        "1" "21" ≠ "" := by
  decide

/-- C9, amended: for `x` in `Client`, `Server`, on a fragment
`<x> Version: version.Info{<a>Major:"<M>"<b>Minor:"<m>"<c>}` where `M` and `m` are
non-empty digit texts, each closed by a double quote, `a`, `b` and `c` have no line
feed and `a` and `b` have no letter `M`, the pattern of the subject compiles and
matches the whole fragment, `versionMatch` extracts `M` and `m` from it, and
`checkVersion` with expected (`M`, `m`) returns `""`. -/
theorem checkVersion_extracts_quoted (x a M b m c : String)
    (hx : x = "Client" ∨ x = "Server") (hM : isDigits M) (hm : isDigits m)
    (ha : avoids a 'M' '\n') (hb : avoids b 'M' '\n') (hc : avoids c '\n' '\n') :
    (∃ r, regexpCompile (x ++ " Version: version.Info{(.*)}") = .ok r ∧
      versionMatch regexVersionMajor (r.findString (fragment x a M b m c)) = M ∧
      versionMatch regexVersionMinor (r.findString (fragment x a M b m c)) = m) ∧
      checkVersion x (fragment x a M b m c) M m = "" := by
  obtain ⟨r, hr, hf, hmaj, hmin⟩ := extract_fragment x hx a M b m c hM hm ha hb hc
  refine ⟨⟨r, hr, ?_, ?_⟩, ?_⟩
  · rw [hf, hmaj]
  · rw [hf, hmin]
  · rw [checkVersion_fragment x hx a M b m c hM hm ha hb hc]
    simp

/-- C9, amended, on a fragment with more fields: `1` and `21` are extracted. -/
theorem checkVersion_extracts_quoted_witness :
    fragment "Server" "" "1" ", " "21" ", GitVersion:\"v1.21.0\"" =
        "Server Version: version.Info\x7bMajor:\"1\", Minor:\"21\", GitVersion:\"v1.21.0\"\x7d" ∧
      (∃ r, regexpCompile ("Server" ++ " Version: version.Info{(.*)}") = .ok r ∧
        versionMatch regexVersionMajor (r.findString
          "Server Version: version.Info\x7bMajor:\"1\", Minor:\"21\", GitVersion:\"v1.21.0\"\x7d") =
            "1" ∧
        versionMatch regexVersionMinor (r.findString
          "Server Version: version.Info\x7bMajor:\"1\", Minor:\"21\", GitVersion:\"v1.21.0\"\x7d") =
            "21") ∧
      checkVersion "Server"
        "Server Version: version.Info\x7bMajor:\"1\", Minor:\"21\", GitVersion:\"v1.21.0\"\x7d"
        "1" "21" = "" :=
  ⟨by decide,
    checkVersion_extracts_quoted "Server" "" "1" ", " "21" ", GitVersion:\"v1.21.0\""
      (Or.inr rfl) (by decide) (by decide) (by decide) (by decide) (by decide)⟩

/-! ## C10: `cleanIDs` -/

/-- C10: `cleanIDs` returns the pieces of the comma-trimmed input split at the
commas, unchanged by its loop: the pieces keep their spaces, and the result is
never empty. -/
theorem cleanIDs_is_split :
    (∀ list : String, cleanIDs list = stringsSplit (stringsTrim list ",") ",") ∧
      (∀ list : String, cleanIDs list ≠ []) ∧
      cleanIDs "1.1, 1.2" = ["1.1", " 1.2"] ∧
      cleanIDs "" = [""] := by
  have h1 : ∀ list : String, cleanIDs list = stringsSplit (stringsTrim list ",") "," := by
    intro list
    unfold cleanIDs
    exact range_loop_keeps _ _ _ _
  refine ⟨h1, ?_, by decide, by decide⟩
  intro list
  rw [h1]
  unfold stringsSplit
  rw [if_neg (by decide)]
  exact splitAux_ne_nil _ _ _ _

/-! ## C5, C6: `verifyConf` -/

theorem isMissing_iff (env : Env) (c : String) :
    isMissing env c = true ↔ ∃ e, env.stat c = .notExist e := by
  unfold isMissing
  cases env.stat c <;> simp

theorem filter_all {α : Type} (p : α → Bool) (l : List α) (h : ∀ x ∈ l, p x = true) :
    l.filter p = l :=
  List.filter_eq_self.2 h

/-- C6: `verifyConf` writes nothing exactly when `os.Stat` reports "does not
exist" for no path of the list; it writes nothing when every path exists; a path
whose `os.Stat` fails with another error can be taken out of the list without
changing what is written; and at most one diagnostic is written. -/
theorem verifyConf_silent_iff (env : Env) (confPath : List String) (o : Output) :
    (newStderr o (verifyConf env confPath o) = [] ↔
        ∀ c ∈ confPath, ∀ e, env.stat c ≠ .notExist e) ∧
      ((∀ c ∈ confPath, env.stat c = .found) → newStderr o (verifyConf env confPath o) = []) ∧
      (∀ l1 l2 c e, env.stat c = .failed e →
        newStderr o (verifyConf env (l1 ++ c :: l2) o) =
          newStderr o (verifyConf env (l1 ++ l2) o)) ∧
      (newStderr o (verifyConf env confPath o)).length ≤ 1 := by
  have hiff : newStderr o (verifyConf env confPath o) = [] ↔
      ∀ c ∈ confPath, ∀ e, env.stat c ≠ .notExist e := by
    rw [verifyConf_new, report_eq_nil_iff, List.filter_eq_nil_iff]
    constructor
    · intro h c hc e he
      exact h c hc ((isMissing_iff env c).2 ⟨e, he⟩)
    · intro h c hc hm
      obtain ⟨e, he⟩ := (isMissing_iff env c).1 hm
      exact h c hc e he
  refine ⟨hiff, ?_, ?_, ?_⟩
  · intro h
    rw [hiff]
    intro c hc e he
    rw [h c hc] at he
    exact StatResult.noConfusion he
  · intro l1 l2 c e he
    have hm : isMissing env c = false := by simp [isMissing, he]
    rw [verifyConf_new, verifyConf_new, List.filter_append, List.filter_append,
      List.filter_cons, hm]
    simp
  · rw [verifyConf_new]
    exact report_length_le _ _ _

/-- C5, as stated, fails: for the empty list no diagnostic is written, and for the
single missing path `a ` (with a final space) the diagnostic does not contain the
path. -/
theorem verifyConf_all_missing_counterexample :
    newStderr Output.empty (verifyConf envBare [] Output.empty) = [] ∧
      newStderr Output.empty (verifyConf envBare ["a "] Output.empty) =
        ["[WARN] Missing kubernetes config files: a\n"] ∧
      stringsContains "[WARN] Missing kubernetes config files: a\n" "a " = false := by
  decide

/-- C5, amended: for a list of paths that `os.Stat` all reports as "does not
exist", `verifyConf` writes exactly one diagnostic when the list is not empty and
none when it is empty; the message is `Missing kubernetes config files: ` and the
paths joined by `", "`, commas and spaces trimmed at both ends; it contains every
path that neither begins nor ends with a comma or a space. -/
theorem verifyConf_all_missing (env : Env) (confPath : List String) (o : Output)
    (hall : ∀ c ∈ confPath, ∃ e, env.stat c = .notExist e) :
    newStderr o (verifyConf env confPath o) =
        (if confPath = [] then []
          else [warnLine env ("Missing kubernetes config files: " ++
            stringsTrim (stringsJoin confPath ", ") ", ")]) ∧
      ∀ c ∈ confPath, touchesCutset ", " c = false →
        stringsContains (warnLine env ("Missing kubernetes config files: " ++
          stringsTrim (stringsJoin confPath ", ") ", ")) c = true := by
  have hf : confPath.filter (isMissing env) = confPath :=
    filter_all _ _ (fun c hc => (isMissing_iff env c).2 (hall c hc))
  constructor
  · rw [verifyConf_new, hf, report]
  · intro c hc hclean
    exact entry_in_warnLine env _ c confPath hc hclean

/-- C5, amended, for two configuration files that do not exist. -/
theorem verifyConf_all_missing_witness :
    newStderr Output.empty
        (verifyConf envBare ["/etc/kubernetes/config", "/etc/kubernetes/kubelet"] Output.empty) =
        ["[WARN] Missing kubernetes config files: " ++
          "/etc/kubernetes/config, /etc/kubernetes/kubelet\n"] ∧
      stringsContains ("[WARN] Missing kubernetes config files: " ++
          "/etc/kubernetes/config, /etc/kubernetes/kubelet\n") "/etc/kubernetes/kubelet" = true :=
  ⟨(verifyConf_all_missing envBare ["/etc/kubernetes/config", "/etc/kubernetes/kubelet"]
      Output.empty (fun _ _ => ⟨_, rfl⟩)).1,
    (verifyConf_all_missing envBare ["/etc/kubernetes/config", "/etc/kubernetes/kubelet"]
      Output.empty (fun _ _ => ⟨_, rfl⟩)).2 "/etc/kubernetes/kubelet" (by decide) (by decide)⟩

/-! ## C2, C3, C7: `verifyBin` -/

theorem unresolved_iff (env : Env) (b : String) :
    unresolved env b = true ↔ env.lookPath b ≠ none := by
  unfold unresolved
  cases env.lookPath b <;> simp

theorem verifyBin_loop_vlog (env : Env) (binPath : List String) (st : BinState) :
    (binPath.foldl (verifyBinStep env) st).out.vlog =
      st.out.vlog ++ binPath.filterMap (fun b => (env.lookPath b).map GoError.external) := by
  induction binPath generalizing st with
  | nil => simp
  | cons b rest ih =>
    rw [List.foldl_cons, ih]
    cases hl : env.lookPath b <;>
      simp [verifyBinStep, hl, Output.call, continueWithError, List.filterMap_cons]

theorem printlnWarn_report_vlog (env : Env) (title : String) (l : List String) (o : Output) :
    (if (suffixed l).length > 0 then printlnWarn env (title ++ stringsTrim (suffixed l) ", ") o
      else o).vlog = o.vlog := by
  split <;> simp [printlnWarn]

/-- The verbose log of `verifyBin`: the errors of the failed path resolutions, then
the error of `ps`, if it failed. -/
theorem verifyBin_vlog (env : Env) (binPath : List String) (o : Output) :
    (verifyBin env binPath o).vlog =
      o.vlog ++ binPath.filterMap (fun b => (env.lookPath b).map GoError.external) ++
        (match (env.commandOutput (psArgv binPath)).2 with
          | some err => [GoError.errorf "%s: %s" [argsText (psArgv binPath), err]]
          | none => []) := by
  obtain ⟨h1, h2, h3, _, _⟩ := verifyBin_loop env binPath ⟨[], "", "", o⟩
  have h6 := verifyBin_loop_vlog env binPath ⟨[], "", "", o⟩
  unfold verifyBin
  simp only []
  rw [h1, h2, h3, notRunning_loop]
  simp only [List.nil_append, empty_append_string]
  rw [printlnWarn_report_vlog, printlnWarn_report_vlog]
  have hps : ["ps", "-C", stringsTrim (binPath.foldl (fun bin b => bin ++ "," ++ b) "") ",",
      "-o", "cmd", "--no-headers"] = psArgv binPath := rfl
  rw [hps]
  generalize (env.commandOutput (psArgv binPath)).2 = r
  cases r <;> simp [continueWithError, Output.call, h6]

/-- C2, as stated, fails: `kube-apiserver`, which does not resolve and is not in
the process listing, is in the "missing" and in the "not running" diagnostic. -/
theorem verifyBin_categories_counterexample :
    envKubelet.lookPath "kube-apiserver" ≠ none ∧
      newStderr Output.empty (verifyBin envKubelet ["kube-apiserver", "kubelet"] Output.empty) =
        ["[WARN] Missing kubernetes binaries: kube-apiserver\n",
          "[WARN] Kubernetes binaries not running: kube-apiserver\n"] := by
  decide

/-- C2, amended: `verifyBin` writes the report of the names whose path resolution
fails, then the report of the names, resolved or not, that are not a substring of
the process listing; a name that fails resolution and is not in the listing is an
entry of both. -/
theorem verifyBin_categories (env : Env) (binPath : List String) (o : Output) :
    newStderr o (verifyBin env binPath o) =
        report env "Missing kubernetes binaries: " (binPath.filter (unresolved env)) ++
          report env "Kubernetes binaries not running: "
            (binPath.filter (absent (env.commandOutput (psArgv binPath)).1)) ∧
      (∀ b, b ∈ binPath.filter (unresolved env) ↔ b ∈ binPath ∧ env.lookPath b ≠ none) ∧
      (∀ b, b ∈ binPath.filter (absent (env.commandOutput (psArgv binPath)).1) ↔
        b ∈ binPath ∧ stringsContains (env.commandOutput (psArgv binPath)).1 b = false) ∧
      (∀ b ∈ binPath, env.lookPath b ≠ none →
        stringsContains (env.commandOutput (psArgv binPath)).1 b = false →
        b ∈ binPath.filter (unresolved env) ∧
          b ∈ binPath.filter (absent (env.commandOutput (psArgv binPath)).1)) := by
  refine ⟨?_, ?_, ?_, ?_⟩
  · apply newStderr_append
    rw [verifyBin_stderr, List.append_assoc]
  · intro b
    rw [List.mem_filter, unresolved_iff]
  · intro b
    simp [List.mem_filter, absent]
  · intro b hb hres hout
    exact ⟨List.mem_filter.2 ⟨hb, (unresolved_iff env b).2 hres⟩,
      List.mem_filter.2 ⟨hb, by simp [absent, hout]⟩⟩

/-- C3, as stated, fails: `kubelet` resolves and `ps` fails without output; the
"not running" diagnostic is written. -/
theorem verifyBin_ps_failure_counterexample :
    (envPsFails.commandOutput (psArgv ["kubelet"])).2 ≠ none ∧
      newStderr Output.empty (verifyBin envPsFails ["kubelet"] Output.empty) =
        ["[WARN] Kubernetes binaries not running: kubelet\n"] := by
  decide

/-- C3, amended: when `ps` fails, the error goes to the verbose log only and
`verifyBin` goes on with the captured output (empty when nothing was captured): it
writes what it writes after a successful `ps` with that output. The "missing"
diagnostic is still written when a name fails resolution. The "not running"
diagnostic is written exactly when some name is not a substring of the captured
output; its message is `Kubernetes binaries not running: ` and those names, in
input order, joined by `", "`, with the commas and spaces at both ends of the
joined text trimmed: the joined text itself when each of those names is not empty
and neither begins nor ends with a comma or a space. With an empty output those
names are the non-empty names of the list. -/
theorem verifyBin_ps_failure (env : Env) (binPath : List String) (o : Output) (err : String)
    (hfail : (env.commandOutput (psArgv binPath)).2 = some err) :
    (verifyBin env binPath o).vlog =
        o.vlog ++ binPath.filterMap (fun b => (env.lookPath b).map GoError.external) ++
          [GoError.errorf "%s: %s" [argsText (psArgv binPath), err]] ∧
      newStderr o (verifyBin env binPath o) =
        newStderr o (verifyBin
          { env with commandOutput := fun argv => ((env.commandOutput argv).1, none) } binPath o) ∧
      newStderr o (verifyBin env binPath o) =
        report env "Missing kubernetes binaries: " (binPath.filter (unresolved env)) ++
          report env "Kubernetes binaries not running: "
            (binPath.filter (absent (env.commandOutput (psArgv binPath)).1)) ∧
      ((∃ b ∈ binPath, env.lookPath b ≠ none) →
        report env "Missing kubernetes binaries: " (binPath.filter (unresolved env)) ≠ []) ∧
      (report env "Kubernetes binaries not running: "
          (binPath.filter (absent (env.commandOutput (psArgv binPath)).1)) ≠ [] ↔
        ∃ b ∈ binPath, stringsContains (env.commandOutput (psArgv binPath)).1 b = false) ∧
      ((env.commandOutput (psArgv binPath)).1 = "" →
        binPath.filter (absent (env.commandOutput (psArgv binPath)).1) =
          binPath.filter (fun b => decide (b ≠ ""))) ∧
      ((∃ b ∈ binPath, env.lookPath b ≠ none) →
        report env "Missing kubernetes binaries: " (binPath.filter (unresolved env)) =
          [warnLine env ("Missing kubernetes binaries: " ++
            stringsTrim (stringsJoin (binPath.filter (unresolved env)) ", ") ", ")]) ∧
      ((∃ b ∈ binPath, stringsContains (env.commandOutput (psArgv binPath)).1 b = false) →
        report env "Kubernetes binaries not running: "
            (binPath.filter (absent (env.commandOutput (psArgv binPath)).1)) =
          [warnLine env ("Kubernetes binaries not running: " ++
            stringsTrim (stringsJoin
              (binPath.filter (absent (env.commandOutput (psArgv binPath)).1)) ", ") ", ")]) ∧
      ((∀ b ∈ binPath, stringsContains (env.commandOutput (psArgv binPath)).1 b = false →
          plainEntry b) →
        stringsTrim (stringsJoin
            (binPath.filter (absent (env.commandOutput (psArgv binPath)).1)) ", ") ", " =
          stringsJoin (binPath.filter (absent (env.commandOutput (psArgv binPath)).1)) ", ") := by
  have hnew : ∀ env' : Env, newStderr o (verifyBin env' binPath o) =
      report env' "Missing kubernetes binaries: " (binPath.filter (unresolved env')) ++
        report env' "Kubernetes binaries not running: "
          (binPath.filter (absent (env'.commandOutput (psArgv binPath)).1)) := by
    intro env'
    apply newStderr_append
    rw [verifyBin_stderr, List.append_assoc]
  refine ⟨?_, ?_, hnew env, ?_, ?_, ?_, ?_, ?_, ?_⟩
  · rw [verifyBin_vlog, hfail]
  · rw [hnew, hnew]
    rfl
  · rintro ⟨b, hb, hres⟩
    rw [Ne, report_eq_nil_iff, List.filter_eq_nil_iff]
    intro h
    exact h b hb ((unresolved_iff env b).2 hres)
  · rw [Ne, report_eq_nil_iff, List.filter_eq_nil_iff]
    constructor
    · intro h
      by_contra hcon
      apply h
      intro b hb hab
      exact hcon ⟨b, hb, by simpa [absent] using hab⟩
    · rintro ⟨b, hb, hout⟩ h
      exact h b hb (by simp [absent, hout])
  · intro hout
    rw [hout]
    apply List.filter_congr
    intro b _
    simp only [absent, stringsContains]
    cases hb : b.data with
    | nil =>
      have : b = "" := String.ext hb
      simp [this, containsAux]
    | cons c cs =>
      have : b ≠ "" := (string_ne_empty_iff b).2 (by simp [hb])
      simp [this, containsAux, List.isPrefixOf]
  · rintro ⟨b, hb, hres⟩
    have hne : binPath.filter (unresolved env) ≠ [] := by
      rw [Ne, List.filter_eq_nil_iff]
      intro h
      exact h b hb ((unresolved_iff env b).2 hres)
    rw [report, if_neg hne]
  · rintro ⟨b, hb, hout⟩
    have hne : binPath.filter (absent (env.commandOutput (psArgv binPath)).1) ≠ [] := by
      rw [Ne, List.filter_eq_nil_iff]
      intro h
      exact h b hb (by simp [absent, hout])
    rw [report, if_neg hne]
  · intro h
    apply trim_join_plain
    intro b hb
    obtain ⟨hmem, hab⟩ := List.mem_filter.1 hb
    exact h b hmem (by simpa [absent] using hab)

/-- C3, amended, for `kubelet` when `ps` fails without output. -/
theorem verifyBin_ps_failure_witness :
    newStderr Output.empty (verifyBin envPsFails ["kubelet"] Output.empty) =
        newStderr Output.empty (verifyBin
          { envPsFails with
            commandOutput := fun argv => ((envPsFails.commandOutput argv).1, none) }
          ["kubelet"] Output.empty) ∧
      newStderr Output.empty (verifyBin envPsFails ["kubelet"] Output.empty) =
        ["[WARN] Kubernetes binaries not running: kubelet\n"] ∧
      report envPsFails "Kubernetes binaries not running: "
          (["kubelet"].filter (absent (envPsFails.commandOutput (psArgv ["kubelet"])).1)) =
        ["[WARN] Kubernetes binaries not running: kubelet\n"] ∧
      stringsTrim (stringsJoin
          (["kubelet"].filter (absent (envPsFails.commandOutput (psArgv ["kubelet"])).1)) ", ")
          ", " = "kubelet" :=
  ⟨(verifyBin_ps_failure envPsFails ["kubelet"] Output.empty "exit status 1" rfl).2.1,
    by decide,
    (verifyBin_ps_failure envPsFails ["kubelet"] Output.empty "exit status 1"
      rfl).2.2.2.2.2.2.2.1 ⟨"kubelet", by decide, by decide⟩,
    (verifyBin_ps_failure envPsFails ["kubelet"] Output.empty "exit status 1"
      rfl).2.2.2.2.2.2.2.2 (by decide)⟩

/-- C7, as stated, fails: the unresolved name `,` is not in the "missing"
diagnostic, and the unresolved name `kube-proxy ` (with a final space) is listed
without its space. -/
theorem verifyBin_missing_counterexample :
    envKubelet.lookPath "," ≠ none ∧
      newStderr Output.empty (verifyBin envKubelet [","] Output.empty) =
        ["[WARN] Missing kubernetes binaries: \n", "[WARN] Kubernetes binaries not running: \n"] ∧
      stringsContains "[WARN] Missing kubernetes binaries: \n" "," = false ∧
      envKubelet.lookPath "kube-proxy " ≠ none ∧
      newStderr Output.empty (verifyBin envKubelet ["kube-proxy "] Output.empty) =
        ["[WARN] Missing kubernetes binaries: kube-proxy\n",
          "[WARN] Kubernetes binaries not running: kube-proxy\n"] ∧
      stringsContains "[WARN] Missing kubernetes binaries: kube-proxy\n" "kube-proxy " = false := by
  decide

/-- C7, amended: `verifyBin` attempts path resolution for every name, in input
order, whatever the earlier results, and then lists the processes once; it writes
the report of the unresolved names, then the report of the names absent from the
process listing. The first report is one diagnostic exactly when a name fails
resolution; its message is `Missing kubernetes binaries: ` and the unresolved names
in input order joined by `", "`, with the commas and spaces at both ends of the
joined text trimmed: the joined text itself when every unresolved name is not empty
and neither begins nor ends with a comma or a space. A name that resolves and
occurs in the process listing is not an entry of the second report. -/
theorem verifyBin_missing_report (env : Env) (binPath : List String) (o : Output) :
    (verifyBin env binPath o).calls =
        o.calls ++ binPath.map Call.lookPath ++ [Call.command (psArgv binPath)] ∧
      newStderr o (verifyBin env binPath o) =
        report env "Missing kubernetes binaries: " (binPath.filter (unresolved env)) ++
          report env "Kubernetes binaries not running: "
            (binPath.filter (absent (env.commandOutput (psArgv binPath)).1)) ∧
      ((report env "Missing kubernetes binaries: " (binPath.filter (unresolved env))).length = 1 ↔
        ∃ b ∈ binPath, env.lookPath b ≠ none) ∧
      ((∃ b ∈ binPath, env.lookPath b ≠ none) →
        report env "Missing kubernetes binaries: " (binPath.filter (unresolved env)) =
          [warnLine env ("Missing kubernetes binaries: " ++
            stringsTrim (stringsJoin (binPath.filter (unresolved env)) ", ") ", ")]) ∧
      ((∀ b ∈ binPath, env.lookPath b ≠ none → plainEntry b) →
        stringsTrim (stringsJoin (binPath.filter (unresolved env)) ", ") ", " =
          stringsJoin (binPath.filter (unresolved env)) ", ") ∧
      (∀ b, env.lookPath b = none →
        stringsContains (env.commandOutput (psArgv binPath)).1 b = true →
        b ∉ binPath.filter (absent (env.commandOutput (psArgv binPath)).1)) := by
  have hne : (∃ b ∈ binPath, env.lookPath b ≠ none) ↔ binPath.filter (unresolved env) ≠ [] := by
    rw [Ne, List.filter_eq_nil_iff]
    constructor
    · rintro ⟨b, hb, hres⟩ h
      exact h b hb ((unresolved_iff env b).2 hres)
    · intro h
      by_contra hcon
      apply h
      intro b hb hu
      exact hcon ⟨b, hb, (unresolved_iff env b).1 hu⟩
  refine ⟨verifyBin_calls env binPath o, ?_, ?_, ?_, ?_, ?_⟩
  · apply newStderr_append
    rw [verifyBin_stderr, List.append_assoc]
  · rw [hne]
    unfold report
    split <;> simp [*]
  · intro h
    rw [report, if_neg (hne.1 h)]
  · intro h
    apply trim_join_plain
    intro b hb
    obtain ⟨hmem, hu⟩ := List.mem_filter.1 hb
    exact h b hmem ((unresolved_iff env b).1 hu)
  · intro b _ hc hmem
    have := (List.mem_filter.1 hmem).2
    simp [absent, hc] at this

/-- C7, amended, at the input of the specification: `kubelet` resolves and runs,
`kube-proxy` does not resolve. -/
theorem verifyBin_missing_report_witness :
    (verifyBin envKubelet ["kubelet", "kube-proxy"] Output.empty).calls =
        [Call.lookPath "kubelet", Call.lookPath "kube-proxy",
          Call.command ["ps", "-C", "kubelet,kube-proxy", "-o", "cmd", "--no-headers"]] ∧
      newStderr Output.empty (verifyBin envKubelet ["kubelet", "kube-proxy"] Output.empty) =
        ["[WARN] Missing kubernetes binaries: kube-proxy\n",
          "[WARN] Kubernetes binaries not running: kube-proxy\n"] ∧
      "kubelet" ∉ ["kubelet", "kube-proxy"].filter
        (absent (envKubelet.commandOutput (psArgv ["kubelet", "kube-proxy"])).1) :=
  ⟨by decide, by decide,
    (verifyBin_missing_report envKubelet ["kubelet", "kube-proxy"] Output.empty).2.2.2.2.2
      "kubelet" rfl (by decide)⟩

/-! ## C8: `verifyKubeVersion` -/

/-- What `verifyKubeVersion` writes once `kubectl` has run: the non-empty results
of `checkVersion` for `Client` and for `Server`, each followed by a line feed. -/
theorem verifyKubeVersion_stderr (env : Env) (major minor : String) (o : Output)
    (hl : env.lookPath "kubectl" = none)
    (hr : (env.commandOutput ["kubectl", "version"]).2 = none) :
    (verifyKubeVersion env major minor o).stderr = o.stderr ++
      ([checkVersion "Client" (env.commandOutput ["kubectl", "version"]).1 major minor,
        checkVersion "Server" (env.commandOutput ["kubectl", "version"]).1 major minor].filter
          (fun msg => decide (msg ≠ ""))).map (fun msg => msg ++ "\n") := by
  unfold verifyKubeVersion
  simp only [hl, hr]
  by_cases h1 : checkVersion "Client" (env.commandOutput ["kubectl", "version"]).1 major minor = ""
  · by_cases h2 :
        checkVersion "Server" (env.commandOutput ["kubectl", "version"]).1 major minor = ""
    · simp [h1, h2, Output.call]
    · simp [h1, h2, Output.call, continueWithError_stderr]
  · by_cases h2 :
        checkVersion "Server" (env.commandOutput ["kubectl", "version"]).1 major minor = ""
    · simp [h1, h2, Output.call, continueWithError_stderr]
    · simp [h1, h2, Output.call, continueWithError_stderr]

/-- C8: the code departs from the claim. Once `kubectl version` has run,
`verifyKubeVersion` writes the results of `checkVersion` as they are: with client
1.20, server 1.21 and expected (`1`, `21`) it writes the line `Unexpected Client
version 1.20`, which is not a line `[<tag>] <message>`; the "skipped" diagnostic of
the same function is written through `sprintlnWarn`. -/
theorem verifyKubeVersion_raw_line :
    (∀ (env : Env) (major minor : String) (o : Output),
      env.lookPath "kubectl" = none → (env.commandOutput ["kubectl", "version"]).2 = none →
      newStderr o (verifyKubeVersion env major minor o) =
        ([checkVersion "Client" (env.commandOutput ["kubectl", "version"]).1 major minor,
          checkVersion "Server" (env.commandOutput ["kubectl", "version"]).1 major minor].filter
            (fun msg => decide (msg ≠ ""))).map (fun msg => msg ++ "\n")) ∧
      newStderr Output.empty (verifyKubeVersion envKubectl "1" "21" Output.empty) =
        ["Unexpected Client version 1.20\n"] ∧
      (∀ msg, "Unexpected Client version 1.20\n" ≠ sprintlnWarn envKubectl msg ++ "\n") ∧
      newStderr Output.empty (verifyKubeVersion envNoKubectl "1" "21" Output.empty) =
        [sprintlnWarn envNoKubectl "Kubernetes version check skipped" ++ "\n"] := by
  refine ⟨?_, by decide, ?_, by decide⟩
  · intro env major minor o hl hr
    exact newStderr_append _ _ _ (verifyKubeVersion_stderr env major minor o hl hr)
  · intro msg h
    have := congrArg String.data h
    simp [sprintlnWarn, String.data_append] at this

end KubeBench
